import Mathlib

/-!
Verification of the core of the node ffmpeg command builder: the fluent
command/session model, the argument-list assembly, the filter-graph string
synthesizer, the stderr telemetry parsers, the line ring buffer, the size
filter derivation and the single-fire completion latch.

JavaScript strings are modelled as Lean strings processed over their character
lists; JavaScript numbers are modelled as exact rationals (the code only ever
manipulates values for which the double rounding is irrelevant to the claims,
and every place this approximation matters is noted locally).
-/

deriving instance DecidableEq for Except

namespace NodeFfmpeg

/-! ### Character and string helpers (JavaScript semantics) -/

/-- Whitespace as matched by the \s class and trim on the characters this
codebase can encounter. -/
def jsWs (c : Char) : Bool :=
  c == ' ' || c == '\t' || c == '\n' || c == '\r'

/-- Trim whitespace from both ends (String.prototype.trim). -/
def trimWs (cs : List Char) : List Char :=
  ((cs.dropWhile jsWs).reverse.dropWhile jsWs).reverse

/-- String.prototype.split with a single-character separator: always returns at
least one (possibly empty) field. -/
def splitOnCharCore (sep : Char) : List Char → List (List Char)
  | [] => [[]]
  | c :: rest =>
    match splitOnCharCore sep rest with
    | [] => [[c]]
    | f :: fs => if c = sep then [] :: f :: fs else (c :: f) :: fs

/-- Split on any line terminator convention, the nlRegexp /\r\n|\r|\n/g of
utils: CRLF counts as a single break. -/
def splitNl : List Char → List (List Char)
  | [] => [[]]
  | '\r' :: '\n' :: rest => [] :: splitNl rest
  | '\r' :: rest => [] :: splitNl rest
  | '\n' :: rest => [] :: splitNl rest
  | c :: rest =>
    match splitNl rest with
    | [] => [[c]]
    | f :: fs => (c :: f) :: fs

/-- Remove the first occurrence of a pattern from a character list
(String.prototype.replace with a plain-string pattern and empty replacement). -/
def removeFirst (pat : List Char) : List Char → List Char
  | [] => []
  | c :: rest =>
    if pat.isPrefixOf (c :: rest) then (c :: rest).drop pat.length
    else c :: removeFirst pat rest

/-- Digit run value in base 10. -/
def digitsToNat (cs : List Char) : Nat :=
  cs.foldl (fun acc c => acc * 10 + (c.toNat - 48)) 0

/-! ### JavaScript number conversions, modelled over exact rationals

Rational arithmetic is spelled through Rat.divInt and the num/den projections
so that every definition evaluates inside the kernel. -/

/-- Exact rational addition. -/
def qAdd (a b : ℚ) : ℚ :=
  Rat.divInt (a.num * (b.den : ℤ) + b.num * (a.den : ℤ)) ((a.den : ℤ) * (b.den : ℤ))

/-- Exact rational multiplication. -/
def qMul (a b : ℚ) : ℚ :=
  Rat.divInt (a.num * b.num) ((a.den : ℤ) * (b.den : ℤ))

/-- Exact rational division (zero when the divisor is zero). -/
def qDiv (a b : ℚ) : ℚ :=
  Rat.divInt (a.num * (b.den : ℤ)) ((a.den : ℤ) * b.num)

/-- Model of the Number() conversion on the string shapes this codebase feeds
it: optional sign and decimal digits with an optional fractional part, with
surrounding whitespace ignored and the empty string converting to 0.
none models NaN. -/
def jsNumber (s : String) : Option ℚ :=
  let cs := trimWs s.data
  if cs = [] then some 0
  else
    let (sign, cs) : ℤ × List Char :=
      match cs with
      | '-' :: r => (-1, r)
      | '+' :: r => (1, r)
      | r => (1, r)
    let intPart := cs.takeWhile Char.isDigit
    let rest := cs.dropWhile Char.isDigit
    match rest with
    | [] =>
      if intPart = [] then none
      else some (Rat.divInt (sign * (digitsToNat intPart : ℤ)) 1)
    | '.' :: frac =>
      let fracDs := frac.takeWhile Char.isDigit
      let rest2 := frac.dropWhile Char.isDigit
      if rest2 = [] ∧ (intPart ≠ [] ∨ fracDs ≠ []) then
        let scale : ℕ := 10 ^ fracDs.length
        some (Rat.divInt
          (sign * ((digitsToNat intPart * scale + digitsToNat fracDs : ℕ) : ℤ))
          (scale : ℤ))
      else none
    | _ => none

/-- Model of parseInt(str, 10): leading whitespace skipped, optional sign, the
longest leading digit run, trailing junk ignored; NaN (none) when no digits.
A missing (undefined) argument is NaN as well. -/
def parseIntJS : Option String → Option ℤ
  | none => none
  | some s =>
    let cs := s.data.dropWhile jsWs
    let (sign, cs) : ℤ × List Char :=
      match cs with
      | '-' :: r => (-1, r)
      | '+' :: r => (1, r)
      | r => (1, r)
    let ds := cs.takeWhile Char.isDigit
    if ds = [] then none else some (sign * digitsToNat ds)

/-- Model of parseFloat: leading whitespace skipped, optional sign, leading
decimal digits with an optional fractional part, trailing junk ignored; NaN
(none) when nothing numeric leads the string. -/
def parseFloatJS (s : String) : Option ℚ :=
  let cs := s.data.dropWhile jsWs
  let (sign, cs) : ℤ × List Char :=
    match cs with
    | '-' :: r => (-1, r)
    | '+' :: r => (1, r)
    | r => (1, r)
  let intPart := cs.takeWhile Char.isDigit
  let rest := cs.dropWhile Char.isDigit
  let fracDs :=
    match rest with
    | '.' :: frac => frac.takeWhile Char.isDigit
    | _ => []
  if intPart = [] ∧ fracDs = [] then none
  else
    let scale : ℕ := 10 ^ fracDs.length
    some (Rat.divInt
      (sign * ((digitsToNat intPart * scale + digitsToNat fracDs : ℕ) : ℤ))
      (scale : ℤ))

def digitChar (n : Nat) : Char := Char.ofNat (48 + n)

/-- Decimal digits of a natural number, fuel-driven so that it reduces in the
kernel; fuel n + 1 always suffices. -/
def natToDigits : Nat → Nat → List Char
  | 0, _ => []
  | fuel + 1, n =>
    if n < 10 then [digitChar n]
    else natToDigits fuel (n / 10) ++ [digitChar (n % 10)]

def natToStr (n : Nat) : String := ⟨natToDigits (n + 1) n⟩

/-- Fractional decimal digits of r / den, at most fuel digits. -/
def fracDigitsOf (den : Nat) : Nat → Nat → List Char
  | 0, _ => []
  | fuel + 1, r =>
    if r = 0 then []
    else digitChar (r * 10 / den) :: fracDigitsOf den fuel (r * 10 % den)

/-- Render a rational the way JavaScript renders the corresponding number when
concatenated into a string. Exact for every value with a terminating decimal
expansion (all integers and the n/100 percent ratios the size helpers build);
truncated to 20 fractional digits otherwise (where JavaScript would print a
shortest 17-significant-digit form; no claim depends on those digits). -/
def jsRatToString (q : ℚ) : String :=
  let sign : String := if q.num < 0 then "-" else ""
  let n := q.num.natAbs
  let d := q.den
  let ip := n / d
  let r := n % d
  if r = 0 then sign ++ natToStr ip
  else sign ++ natToStr ip ++ "." ++ (⟨fracDigitsOf d 20 r⟩ : String)

/-! ### Filter specifications and the filter-graph synthesizer (utils.makeFilterStrings) -/

/-- A filter option value: a JavaScript string or number. -/
inductive FVal
  | str (s : String)
  | num (q : ℚ)
deriving DecidableEq

/-- The options field of a structured filter spec: absent, a scalar, a
positional array, or a named map (insertion-ordered, as Object.keys). -/
inductive FilterOptions
  | undef
  | scalar (v : FVal)
  | arr (vs : List FVal)
  | obj (kvs : List (String × FVal))
deriving DecidableEq

/-- A structured filter specification. A single-string inputs/outputs field
behaves exactly like a one-element array, so both are a list ([] = absent). -/
structure FilterSpecObj where
  filter : String
  inputs : List String := []
  options : FilterOptions := .undef
  outputs : List String := []
deriving DecidableEq

/-- A filter spec: an uninterpreted pre-formatted string, or a structured
record. -/
inductive FilterSpec
  | raw (s : String)
  | spec (f : FilterSpecObj)
deriving DecidableEq

/-- streamSpec.replace(streamRegexp, "[$1]") with streamRegexp ^\[?(.*?)\]?$ :
strip one optional leading bracket and one optional trailing bracket, then
wrap in brackets. -/
def replaceStreamSpec (s : String) : String :=
  let cs := s.data
  let cs :=
    match cs with
    | '[' :: r => r
    | r => r
  let cs :=
    match cs.reverse with
    | ']' :: r => r.reverse
    | _ => cs
  "[" ++ (⟨cs⟩ : String) ++ "]"

/-- The single-quote character, used by the synthesizer to escape values. -/
def squote : String := ⟨[Char.ofNat 39]⟩

/-- Render an array/map option value, quoting string values that contain a
comma (filterEscapeRegexp), numbers verbatim. -/
def quoteIfComma (v : FVal) : String :=
  match v with
  | .str s => if s.data.contains ',' then squote ++ s ++ squote else s
  | .num q => jsRatToString q

/-- Render a scalar option value (never quoted). -/
def renderScalar (v : FVal) : String :=
  match v with
  | .str s => s
  | .num q => jsRatToString q

/-- JavaScript truthiness of the options field: the code only appends option
text under `if (filterSpec.options)`, so an absent field, an empty string and
the number 0 all suppress it, while arrays and objects are always truthy. -/
def optsTruthy : FilterOptions → Bool
  | .undef => false
  | .scalar (.str s) => s ≠ ""
  | .scalar (.num q) => q ≠ 0
  | .arr _ => true
  | .obj _ => true

/-- The option text appended after the filter name (including the leading "="),
empty when nothing is appended. A truthy named map with zero keys appends
nothing (the Object.keys length guard). -/
def renderOpts (o : FilterOptions) : String :=
  if optsTruthy o then
    match o with
    | .scalar v => "=" ++ renderScalar v
    | .arr vs => "=" ++ String.intercalate ":" (vs.map quoteIfComma)
    | .obj kvs =>
      if kvs.length ≠ 0 then
        "=" ++ String.intercalate ":" (kvs.map fun kv => kv.1 ++ "=" ++ quoteIfComma kv.2)
      else ""
    | .undef => ""
  else ""

/-- utils.makeFilterStrings on a single spec: bracketed inputs, filter name,
option text, bracketed outputs; a string spec passes through unchanged. -/
def makeFilterString (fs : FilterSpec) : String :=
  match fs with
  | .raw s => s
  | .spec f =>
    String.join (f.inputs.map replaceStreamSpec)
      ++ f.filter
      ++ renderOpts f.options
      ++ String.join (f.outputs.map replaceStreamSpec)

/-- utils.makeFilterStrings: an order-preserving map over the spec array. -/
def makeFilterStrings (filters : List FilterSpec) : List String :=
  filters.map makeFilterString

/-! ### Timemark conversion (utils.timemarkToSeconds) -/

/-- The argument to timemarkToSeconds: a number or a string. -/
inductive Timemark
  | num (q : ℚ)
  | str (s : String)
deriving DecidableEq

/-- NaN-propagating addition (none models NaN). -/
def optAdd : Option ℚ → Option ℚ → Option ℚ
  | some a, some b => some (qAdd a b)
  | _, _ => none

/-- The pop-driven accumulation over the colon-separated parts: seconds from
the last part, plus minutes * 60 from the one before, plus hours * 3600 from
the one before that; any further parts are ignored. -/
def colonSecondsSum (parts : List String) : Option ℚ :=
  match parts.reverse with
  | [] => none
  | s :: rest =>
    let secs := jsNumber s
    match rest with
    | [] => secs
    | m :: rest2 =>
      let secs := optAdd secs ((jsNumber m).map (qMul · 60))
      match rest2 with
      | [] => secs
      | h :: _ => optAdd secs ((jsNumber h).map (qMul · 3600))

/-- utils.timemarkToSeconds: numbers pass through; a string without a colon but
with a dot converts directly via Number(); otherwise the colon-separated parts
are accumulated right to left. -/
def timemarkToSeconds : Timemark → Option ℚ
  | .num q => some q
  | .str s =>
    if !(s.data.contains ':') && s.data.contains '.' then jsNumber s
    else colonSecondsSum ((splitOnCharCore ':' s.data).map fun cs => (⟨cs⟩ : String))

/-! ### Progress line parsing (utils parseProgressLine / extractProgress) -/

/-- Collapse every "=" followed by whitespace to a bare "=" (the global
replace of the regexp matching an equals sign and following whitespace). -/
def collapseEqAux : Bool → List Char → List Char
  | _, [] => []
  | skip, c :: rest =>
    if skip && jsWs c then collapseEqAux true rest
    else if c = '=' then '=' :: collapseEqAux true rest
    else c :: collapseEqAux false rest

/-- One token through the progress parser: split at "=" with limit 2 (the
value is the text between the first and second "="); a token without a "="
poisons the whole line. -/
def progressStep (acc : Option (List (String × String))) (tok : List Char) :
    Option (List (String × String)) :=
  acc.bind fun kvs =>
    match splitOnCharCore '=' tok with
    | key :: value :: _ => some (kvs ++ [((⟨key⟩ : String), (⟨value⟩ : String))])
    | _ => none

/-- parseProgressLine: collapse "= " runs, trim, split on single spaces, and
fold every token through progressStep; any token without a "=" makes the whole
line yield nothing. Successful parses produce the key/value pairs in order. -/
def parseProgressLine (line : String) : Option (List (String × String)) :=
  let trimmed := trimWs (collapseEqAux false line.data)
  let parts := splitOnCharCore ' ' trimmed
  parts.foldl progressStep (some [])

/-- Property lookup on the parsed progress object: the last assignment to a
key wins, as on a JavaScript object. -/
def jsObjGet (kvs : List (String × String)) (k : String) : Option String :=
  (kvs.reverse.find? fun kv => kv.1 == k).map (·.2)

/-- The structured progress report. none models NaN in the numeric fields and
an absent key in the timemark/percent fields. -/
structure Progress where
  frames : Option ℤ
  currentFps : Option ℤ
  currentKbps : Option ℚ
  targetSize : Option ℤ
  timemark : Option String
  percent : Option ℚ
deriving DecidableEq

/-- utils.extractProgress, with the probed duration (the numeric
command.ffprobeData.format.duration when one is known) passed explicitly, and
the emitted progress report returned instead of raised as an event. When a
duration is known but the line has no time key the original code raises a
TypeError from the timemark conversion; that unreachable corner is modelled as
an absent percent. -/
def extractProgress (duration : Option ℚ) (stderrLine : String) : Option Progress :=
  (parseProgressLine stderrLine).map fun p =>
    let timemark := jsObjGet p "time"
    { frames := parseIntJS (jsObjGet p "frame")
      currentFps := parseIntJS (jsObjGet p "fps")
      currentKbps :=
        match jsObjGet p "bitrate" with
        | some b =>
          if b ≠ "" then parseFloatJS (⟨removeFirst "kbits/s".data b.data⟩ : String)
          else some 0
        | none => some 0
      targetSize :=
        parseIntJS
          (match jsObjGet p "size" with
           | some sz => if sz ≠ "" then some sz else jsObjGet p "Lsize"
           | none => jsObjGet p "Lsize")
      timemark := timemark
      percent :=
        match duration, timemark with
        | some dur, some t =>
          (timemarkToSeconds (.str t)).map fun q => qMul (qDiv q dur) 100
        | _, _ => none }

/-! ### The line ring buffer (utils.linesRing) -/

/-- State of a linesRing buffer. emitted records every line handed to the
line callbacks, in order. -/
structure LinesRing where
  maxLines : ℤ
  lines : List String
  current : Option String
  closed : Bool
  emitted : List String
deriving DecidableEq

/-- utils.linesRing constructor: empty history, no pending line, open. -/
def linesRing (maxLines : ℤ) : LinesRing :=
  { maxLines := maxLines, lines := [], current := none, closed := false, emitted := [] }

/-- append(str): ignored after close and for empty chunks; otherwise the chunk
is split on line terminators, completed lines are emitted and pushed, the tail
becomes the pending line, and the history is trimmed to its last
maxLines - 1 entries when a maximum is set. -/
def LinesRing.append (r : LinesRing) (str : String) : LinesRing :=
  if r.closed then r
  else if str.data = [] then r
  else
    let max := r.maxLines - 1
    let newLines := (splitNl str.data).map fun cs => (⟨cs⟩ : String)
    match newLines with
    | [] => r
    | [only] =>
      { r with current := some ((r.current.getD "") ++ only) }
    | first :: more =>
      let completed := ((r.current.getD "") ++ first) :: more.dropLast
      let lines' := r.lines ++ completed
      let lines'' :=
        if max > -1 ∧ (lines'.length : ℤ) > max then lines'.drop (lines'.length - max.toNat)
        else lines'
      { r with
        lines := lines''
        current := more.getLast?
        emitted := r.emitted ++ completed }

/-- get(): the history plus the pending line, joined with newlines. -/
def LinesRing.get (r : LinesRing) : String :=
  match r.current with
  | some cur => String.intercalate "\n" (r.lines ++ [cur])
  | none => String.intercalate "\n" r.lines

/-- close(): flush the pending line (emitting it once and shifting the history
when it overflows a set maximum), then refuse all further work. -/
def LinesRing.close (r : LinesRing) : LinesRing :=
  if r.closed then r
  else
    let max := r.maxLines - 1
    match r.current with
    | some cur =>
      let lines' := r.lines ++ [cur]
      let lines'' := if max > -1 ∧ (lines'.length : ℤ) > max then lines'.drop 1 else lines'
      { r with lines := lines'', current := none, closed := true,
               emitted := r.emitted ++ [cur] }
    | none => { r with closed := true }

/-! ### The single-fire completion latch (processor.run emitEnd) -/

/-- A terminal outcome of one run() invocation. -/
inductive TerminalEvent
  | success
  | failure (msg : String)
deriving DecidableEq

/-- Per-invocation latch state: the ended flag plus every terminal event
emitted so far. -/
structure RunState where
  ended : Bool
  events : List TerminalEvent
deriving DecidableEq

def toTerminalEvent : Option String → TerminalEvent
  | some e => .failure e
  | none => .success

/-- emitEnd(err, ...): emit the terminal event unless the invocation already
ended, and latch the ended flag. -/
def emitEnd (st : RunState) (err : Option String) : RunState :=
  if st.ended then st
  else { ended := true, events := st.events ++ [toTerminalEvent err] }

/-- A run() invocation observed as the sequence of completion triggers that
call emitEnd (nonzero exit, kill signal, stream errors, timeout, success), in
arrival order, starting from the fresh latch. -/
def runTriggers (triggers : List (Option String)) : RunState :=
  triggers.foldl emitEnd { ended := false, events := [] }

/-! ### Custom option splitting (options/custom inputOptions / outputOptions) -/

/-- The call shapes of inputOptions/outputOptions: one string, one array, or
several arguments. -/
inductive OptionCall
  | single (s : String)
  | singleArr (xs : List String)
  | multi (xs : List String)
deriving DecidableEq

/-- One option through the reducer: when splitting is enabled and the option
splits on single spaces into exactly two fields, both fields are pushed;
otherwise the option is pushed verbatim. -/
def formatOption (doSplit : Bool) (opt : String) : List String :=
  let split := splitOnCharCore ' ' opt.data
  if doSplit ∧ split.length = 2 then split.map fun cs => (⟨cs⟩ : String)
  else [opt]

/-- The full reducer: a single string or single array is subject to splitting,
more than one argument never is. -/
def formatOptions (call : OptionCall) : List String :=
  let (doSplit, opts) :=
    match call with
    | .single s => (true, [s])
    | .singleArr xs => (true, xs)
    | .multi xs => (false, xs)
  opts.foldl (fun acc o => acc ++ formatOption doSplit o) []

/-! ### Size filters (options/videosize) -/

/-- Math.round: round half toward positive infinity. -/
def jsRound (q : ℚ) : ℤ := Rat.floor (qAdd q (Rat.divInt 1 2))

/-- First match of the fixed-size pattern of digits, an x, and digits
(searching every start position, as an unanchored regex does); returns the two
digit groups. -/
def findWxH : List Char → Option (List Char × List Char)
  | [] => none
  | c :: rest =>
    if c.isDigit then
      let w := (c :: rest).takeWhile Char.isDigit
      match (c :: rest).dropWhile Char.isDigit with
      | 'x' :: r2 =>
        let h := r2.takeWhile Char.isDigit
        if h ≠ [] then some (w, h) else findWxH rest
      | _ => findWxH rest
    else findWxH rest

/-- First match of the fixed-width pattern: digits, an x, and a question
mark. -/
def findWq : List Char → Option (List Char)
  | [] => none
  | c :: rest =>
    if c.isDigit then
      let w := (c :: rest).takeWhile Char.isDigit
      match (c :: rest).dropWhile Char.isDigit with
      | 'x' :: '?' :: _ => some w
      | _ => findWq rest
    else findWq rest

/-- First match of the fixed-height pattern: a question mark, an x, and
digits. -/
def findQH : List Char → Option (List Char)
  | [] => none
  | c :: rest =>
    match c, rest with
    | '?', 'x' :: r2 =>
      let h := r2.takeWhile Char.isDigit
      if h ≠ [] then some h else findQH rest
    | _, _ => findQH rest

/-- Word character of the \b boundary assertion. -/
def isWordChar (c : Char) : Bool := c.isAlpha || c.isDigit || c == '_'

/-- First match of the percent pattern: a word boundary, one to three digits
and a percent sign; prev is the character before the current position. -/
def findPercent (prev : Option Char) : List Char → Option (List Char)
  | [] => none
  | c :: rest =>
    if c.isDigit && (match prev with | none => true | some p => !isWordChar p) then
      let ds := (c :: rest).takeWhile Char.isDigit
      if ds.length ≤ 3 ∧ ((c :: rest).dropWhile Char.isDigit).head? = some '%' then
        some ds
      else findPercent (some c) rest
    else findPercent (some c) rest

/-- videosize getScalePadFilters: a scale filter to fit inside the box followed
by a pad filter to the exact box, all numeric parameters concatenated into the
option strings exactly as the source builds them. -/
def getScalePadFilters (width height aspect : ℚ) (color : String) : List FilterSpec :=
  [ .spec
      { filter := "scale",
        options := .obj
          [("w", .str ("if(gt(a," ++ jsRatToString aspect ++ ")," ++ jsRatToString width
              ++ ",trunc(" ++ jsRatToString height ++ "*a/2)*2)")),
           ("h", .str ("if(lt(a," ++ jsRatToString aspect ++ ")," ++ jsRatToString height
              ++ ",trunc(" ++ jsRatToString width ++ "/a/2)*2)"))] },
    .spec
      { filter := "pad",
        options := .obj
          [("w", .num width),
           ("h", .num height),
           ("x", .str ("if(gt(a," ++ jsRatToString aspect ++ "),0,(" ++ jsRatToString width
              ++ "-iw)/2)")),
           ("y", .str ("if(lt(a," ++ jsRatToString aspect ++ "),0,(" ++ jsRatToString height
              ++ "-ih)/2)")),
           ("color", .str color)] } ]

/-- The persisted size parameters of an output. The pad entry holds the pad
color when padding was requested; the values false and absent are only ever
consulted for truthiness, so both are modelled as none. -/
structure SizeData where
  size : Option String := none
  aspect : Option ℚ := none
  pad : Option String := none
deriving DecidableEq

/-- JavaScript truthiness of the stored pad value. -/
def padTruthy : Option String → Option String
  | some c => if c = "" then none else some c
  | none => none

/-- videosize createSizeFilters after the parameter store: derive the complete
size-filter list from the persisted size data, or fail when the size string
matches none of the four supported shapes. -/
def createSizeFilters (d : SizeData) : Except String (List FilterSpec) :=
  match d.size with
  | none => .ok []
  | some sz =>
    let cs := sz.data
    match findPercent none cs with
    | some pct =>
      let r : ℚ := Rat.divInt (digitsToNat pct : ℤ) 100
      .ok [ .spec
        { filter := "scale",
          options := .obj
            [("w", .str ("trunc(iw*" ++ jsRatToString r ++ "/2)*2")),
             ("h", .str ("trunc(ih*" ++ jsRatToString r ++ "/2)*2"))] } ]
    | none =>
    match findWxH cs with
    | some (wds, hds) =>
      let width : ℚ := qMul (jsRound (qDiv (digitsToNat wds : ℚ) 2) : ℚ) 2
      let height : ℚ := qMul (jsRound (qDiv (digitsToNat hds : ℚ) 2) : ℚ) 2
      let aspect := qDiv width height
      match padTruthy d.pad with
      | some color => .ok (getScalePadFilters width height aspect color)
      | none =>
        .ok [ .spec { filter := "scale",
                      options := .obj [("w", .num width), ("h", .num height)] } ]
    | none =>
    match findWq cs, findQH cs with
    | none, none => .error ("Invalid size specified: " ++ sz)
    | fw, fh =>
      match d.aspect with
      | some a =>
        let width0 : ℚ :=
          match fw with
          | some w => (digitsToNat w : ℚ)
          | none => (jsRound (qMul (digitsToNat (fh.getD []) : ℚ) a) : ℚ)
        let height0 : ℚ :=
          match fh with
          | some h => (digitsToNat h : ℚ)
          | none => (jsRound (qDiv (digitsToNat (fw.getD []) : ℚ) a) : ℚ)
        let width := qMul (jsRound (qDiv width0 2) : ℚ) 2
        let height := qMul (jsRound (qDiv height0 2) : ℚ) 2
        match padTruthy d.pad with
        | some color => .ok (getScalePadFilters width height a color)
        | none =>
          .ok [ .spec { filter := "scale",
                        options := .obj [("w", .num width), ("h", .num height)] } ]
      | none =>
        match fw with
        | some w =>
          .ok [ .spec { filter := "scale",
                        options := .obj
                          [("w", .num (qMul (jsRound (qDiv (digitsToNat w : ℚ) 2) : ℚ) 2)),
                           ("h", .str "trunc(ow/a/2)*2")] } ]
        | none =>
          .ok [ .spec { filter := "scale",
                        options := .obj
                          [("w", .str "trunc(oh*a/2)*2"),
                           ("h", .num (qMul (jsRound (qDiv (digitsToNat (fh.getD []) : ℚ) 2) : ℚ) 2))] } ]

/-! ### The session data model and the output mutators -/

/-- An input source: a path or URI string, or a live readable stream (the
readable flag records whether the stream object is actually readable). -/
inductive InSource
  | path (p : String)
  | stream (readable : Bool)
deriving DecidableEq

/-- An input record as pushed by mergeAdd. -/
structure SInput where
  source : InSource
  isFile : Bool := false
  isStream : Bool := false
  options : List String := []
deriving DecidableEq

/-- An output target: the placeholder without a target key, a string target,
or a writable stream. -/
inductive OutTarget
  | noTarget
  | path (p : String)
  | stream
deriving DecidableEq

/-- An output record: target, file flag, the four option/filter argument
lists, the generic options, the derived size filters and the persisted size
data. -/
structure FOutput where
  target : OutTarget := .noTarget
  isFile : Bool := false
  audioOpts : List String := []
  audioFilters : List String := []
  videoOpts : List String := []
  videoFilters : List String := []
  sizeFilters : List FilterSpec := []
  options : List String := []
  sizeData : SizeData := {}
deriving DecidableEq

/-- The size string matches one of the four supported shapes. -/
def sizeMatchable (sz : String) : Prop :=
  (findPercent none sz.data).isSome = true ∨ (findWxH sz.data).isSome = true ∨
    (findWq sz.data).isSome = true ∨ (findQH sz.data).isSome = true

instance (sz : String) : Decidable (sizeMatchable sz) := by
  unfold sizeMatchable; infer_instance

/-- An output whose persisted size string, if any, matches one of the four
supported shapes (true of every output that never had a size call raise). -/
def prevSizeOk (o : FOutput) : Prop :=
  o.sizeData.size = none ∨ ∃ sz, o.sizeData.size = some sz ∧ sizeMatchable sz

/-- videosize size(): persist the requested size, recompute the filters, and
replace the size-filter list wholesale. -/
def size (o : FOutput) (sz : String) : Except String FOutput :=
  let d := { o.sizeData with size := some sz }
  (createSizeFilters d).map fun filters => { o with sizeData := d, sizeFilters := filters }

/-- The aspect argument: a number or a string. -/
inductive AspectArg
  | num (q : ℚ)
  | str (s : String)
deriving DecidableEq

/-- The anchored width:height pattern of the aspect parser. -/
def aspectColonMatch (s : String) : Option (ℕ × ℕ) :=
  let cs := s.data
  let d1 := cs.takeWhile Char.isDigit
  match cs.dropWhile Char.isDigit with
  | ':' :: r2 =>
    let d2 := r2.takeWhile Char.isDigit
    if d1 ≠ [] ∧ d2 ≠ [] ∧ r2.dropWhile Char.isDigit = [] then
      some (digitsToNat d1, digitsToNat d2)
    else none
  | _ => none

/-- videosize aspectRatio() (the withAspect alias): accept a number, a numeric
string, or a width:height string, then persist the aspect and recompute the
size-filter list. -/
def withAspect (o : FOutput) (arg : AspectArg) : Except String FOutput :=
  let parsed : Except String ℚ :=
    match arg with
    | .num q => .ok q
    | .str s =>
      match jsNumber s with
      | some q => .ok q
      | none =>
        match aspectColonMatch s with
        | some (n1, n2) => .ok (Rat.divInt (n1 : ℤ) (n2 : ℤ))
        | none => .error ("Invalid aspect ratio: " ++ s)
  parsed.bind fun a =>
    let d := { o.sizeData with aspect := some a }
    (createSizeFilters d).map fun filters => { o with sizeData := d, sizeFilters := filters }

/-- The pad argument of autopad: absent, a boolean, or a color string. -/
inductive PadArg
  | undef
  | bool (b : Bool)
  | str (s : String)
deriving DecidableEq

/-- The pad value autopad persists, after normalizing the argument shapes
(autopad(color), autopad(), autopad(undefined, color)): the requested color,
black by default, or off (none). -/
def padValue (pad : PadArg) (color : Option String) : Option String :=
  let (pad, color) :=
    match pad with
    | .str s => (PadArg.bool true, some s)
    | p => (p, color)
  let padB : Bool :=
    match pad with
    | .undef => true
    | .bool b => b
    | .str _ => true
  if padB then
    some (match color with
          | some c => if c = "" then "black" else c
          | none => "black")
  else none

/-- videosize autopad(): persist the normalized pad value and recompute the
size-filter list. -/
def autopad (o : FOutput) (pad : PadArg) (color : Option String) : Except String FOutput :=
  let d := { o.sizeData with pad := padValue pad color }
  (createSizeFilters d).map fun filters => { o with sizeData := d, sizeFilters := filters }

example :
    makeFilterStrings
      [FilterSpec.spec
        { filter := "scale",
          options := FilterOptions.obj [("w", FVal.num 320), ("h", FVal.num 240)] }]
      = ["scale=w=320:h=240"] := by decide

example : (size {} "50%").map (·.sizeFilters.length) = .ok 1 := by decide

example :
    (size {} "320x240").map FOutput.sizeFilters
      = .ok [FilterSpec.spec
          { filter := "scale",
            options := FilterOptions.obj [("w", FVal.num 320), ("h", FVal.num 240)] }] := by
  decide

example : size {} "foo" = .error "Invalid size specified: foo" := by decide

/-! ### The session aggregate and argument-list assembly (processor._getArguments) -/

/-- The session state the assembly consumes: inputs, outputs, global options
and complex-filter tokens. -/
structure FfmpegSession where
  inputs : List SInput := []
  outputs : List FOutput := []
  globalOpts : List String := []
  complexFilters : List String := []
deriving DecidableEq

/-- processor._getArguments: inputs with their options, global options, the
overwrite flag when any output targets a file, the complex-filter tokens, then
every output's options, combined filter flags and target token. A falsy
target (the placeholder, or an empty string) contributes no token. -/
def getArguments (s : FfmpegSession) : List String :=
  let fileOutput := s.outputs.any (·.isFile)
  let inputsAndInputOptions :=
    s.inputs.foldl
      (fun args input =>
        args ++ input.options
          ++ ["-i", match input.source with | .path p => p | .stream _ => "pipe:0"])
      []
  let outputsAndFiltersAndOutputOptions :=
    s.outputs.foldl
      (fun args output =>
        args ++ output.audioOpts
          ++ (if (output.audioFilters).length ≠ 0 then
                ["-filter:a", String.intercalate "," output.audioFilters] else [])
          ++ output.videoOpts
          ++ (if (output.videoFilters ++ makeFilterStrings output.sizeFilters).length ≠ 0 then
                ["-filter:v", String.intercalate ","
                  (output.videoFilters ++ makeFilterStrings output.sizeFilters)] else [])
          ++ output.options
          ++ (match output.target with
              | .noTarget => []
              | .path p => if p = "" then [] else [p]
              | .stream => ["pipe:1"]))
      []
  inputsAndInputOptions ++ s.globalOpts
    ++ (if fileOutput then ["-y"] else [])
    ++ s.complexFilters
    ++ outputsAndFiltersAndOutputOptions

/-- Specification-side token sequence for one input, as the claim words it:
input options, the input flag, the source token (the pipe stand-in for a
stream). -/
def inputTokensSpec (i : SInput) : List String :=
  i.options ++ ["-i", match i.source with | .path p => p | .stream _ => "pipe:0"]

/-- Specification-side token sequence for one output, as the claim words it:
audio options, one combined audio-filter flag when any audio filter was
accumulated, video options, one combined video-filter flag (video filters then
size filters) when any video or size filter was accumulated, remaining generic
options, then the target token. -/
def outputTokensSpec (o : FOutput) : List String :=
  o.audioOpts
    ++ (if o.audioFilters = [] then []
        else ["-filter:a", String.intercalate "," o.audioFilters])
    ++ o.videoOpts
    ++ (if o.videoFilters = [] ∧ o.sizeFilters = [] then []
        else ["-filter:v",
              String.intercalate "," (o.videoFilters ++ makeFilterStrings o.sizeFilters)])
    ++ o.options
    ++ (match o.target with
        | .noTarget => []
        | .path p => [p]
        | .stream => ["pipe:1"])

/-- Specification-side assembly, as the claim words the whole sequence. -/
def argumentsSpec (s : FfmpegSession) : List String :=
  (s.inputs.map inputTokensSpec).flatten
    ++ s.globalOpts
    ++ (if s.outputs.any (·.isFile) then ["-y"] else [])
    ++ s.complexFilters
    ++ (s.outputs.map outputTokensSpec).flatten

/-! ### Session mutators guarding the stream invariants (options/inputs mergeAdd,
options/output output) -/

/-- options/inputs mergeAdd (the input() alias): reject non-readable stream
objects, reject a second stream input, classify string sources by protocol,
and push the new input. The protocol guard compares the full regex match
(which includes the colon) against the bare word file, so it never fires, as
in the source. -/
def protocolMatch (p : String) : Option String :=
  let letters := p.data.takeWhile (·.isAlpha)
  if letters.length ≥ 2 ∧ (p.data.dropWhile (·.isAlpha)).head? = some ':' then
    some ((⟨letters⟩ : String) ++ ":")
  else none

def mergeAdd (s : FfmpegSession) (source : InSource) : Except String FfmpegSession :=
  match source with
  | .stream readable =>
    if !readable then .error "Invalid input"
    else if s.inputs.any (·.isStream) then .error "Only one input stream is supported"
    else .ok { s with inputs := s.inputs ++ [{ source := source, isStream := true }] }
  | .path p =>
    let isFile :=
      match protocolMatch p with
      | none => true
      | some m => m = "file"
    .ok { s with inputs := s.inputs ++ [{ source := source, isFile := isFile }] }

/-- The target argument of output(): absent, a string, or a writable stream
(the writable flag records whether the object really is writable). -/
inductive OutArg
  | undef
  | path (p : String)
  | stream (writable : Bool)
deriving DecidableEq

/-- Whether an output's stored target is a string (the hasOutputStream check
counts everything else, including the placeholder, as a stream). -/
def isStringTarget : OutTarget → Bool
  | .path _ => true
  | _ => false

/-- options/output output(): reject a missing target once a current output
exists, reject non-writable stream objects, fill the first (placeholder)
output with the first real target, and otherwise push a fresh output after
rejecting a second stream target. -/
def output (s : FfmpegSession) (target : OutArg) : Except String FfmpegSession :=
  let truthy : Bool :=
    match target with
    | .undef => false
    | .path p => p != ""
    | .stream _ => true
  if !truthy && (s.outputs.getLast?).isSome then .error "Invalid output"
  else if (match target with | .stream w => !w | _ => false) then .error "Invalid output"
  else
    let isFile :=
      match target with
      | .path p =>
        (match protocolMatch p with
         | none => true
         | some m => m = "file")
      | _ => false
    let targetVal : OutTarget :=
      match target with
      | .undef => .noTarget
      | .path p => if p = "" then .noTarget else .path p
      | .stream _ => .stream
    if truthy && (match s.outputs.getLast? with
                  | some cur => cur.target == OutTarget.noTarget
                  | none => false) then
      -- For backwards compatibility, set target for the first output
      .ok { s with outputs :=
        s.outputs.dropLast
          ++ [{ (s.outputs.getLast?.getD {}) with target := targetVal, isFile := isFile }] }
    else
      if truthy && (match target with | OutArg.stream _ => true | _ => false) then
        if s.outputs.any (fun o => !isStringTarget o.target) then
          .error "Only one output stream is supported"
        else .ok { s with outputs := s.outputs ++ [{ target := targetVal, isFile := isFile }] }
      else .ok { s with outputs := s.outputs ++ [{ target := targetVal, isFile := isFile }] }

/-- The session mutations the stream invariant quantifies over. -/
inductive SessionOp
  | addIn (src : InSource)
  | addOut (t : OutArg)
deriving DecidableEq

def applyOp (s : FfmpegSession) (op : SessionOp) : Except String FfmpegSession :=
  match op with
  | .addIn src => mergeAdd s src
  | .addOut t => output s t

/-- One step of session mutation: a raised configuration error leaves the
session unchanged. -/
def stepOp (s : FfmpegSession) (op : SessionOp) : FfmpegSession :=
  match applyOp s op with
  | .ok s' => s'
  | .error _ => s

/-- The session as the constructor builds it: no inputs and the backward
compatible placeholder output. -/
def initSession : FfmpegSession := { outputs := [{}] }

def runOps (ops : List SessionOp) : FfmpegSession := ops.foldl stepOp initSession

/-- At most one stream input and at most one stream-target output. -/
def streamInv (s : FfmpegSession) : Prop :=
  s.inputs.countP (·.isStream) ≤ 1 ∧
    s.outputs.countP (fun o => o.target == OutTarget.stream) ≤ 1

/-- The inductive strengthening: the placeholder can only ever be the sole
output. -/
def goodSession (s : FfmpegSession) : Prop :=
  streamInv s ∧ ∀ o ∈ s.outputs, o.target = OutTarget.noTarget → s.outputs.length = 1

/-! ### Applying the custom option mutators -/

/-- options/custom inputOptions on the current input: append the formatted
options. -/
def inputOptionsApply (inp : SInput) (call : OptionCall) : SInput :=
  { inp with options := inp.options ++ formatOptions call }

/-- options/custom outputOptions on the current output: append the formatted
options. -/
def outputOptionsApply (o : FOutput) (call : OptionCall) : FOutput :=
  { o with options := o.options ++ formatOptions call }

example :
    getArguments
      { inputs := [{ source := .path "in.avi", isFile := true }],
        outputs := [{ target := .path "out.mp4", isFile := true,
                      audioOpts := ["-acodec", "aac"] }],
        globalOpts := ["-g"] }
      = ["-i", "in.avi", "-g", "-y", "-acodec", "aac", "out.mp4"] := by decide

/-! ## Shared helper lemmas -/

theorem foldl_append_flatten {α β : Type} (f : α → List β) :
    ∀ (l : List α) (init : List β),
      l.foldl (fun acc x => acc ++ f x) init = init ++ (l.map f).flatten := by
  intro l
  induction l with
  | nil => intro init; simp
  | cons x xs ih => intro init; simp [ih]

theorem splitOnCharCore_ne_nil (sep : Char) (l : List Char) : splitOnCharCore sep l ≠ [] := by
  cases l with
  | nil => simp [splitOnCharCore]
  | cons c rest =>
    simp only [splitOnCharCore]
    rcases h : splitOnCharCore sep rest with _ | ⟨f, fs⟩
    · simp
    · by_cases hc : c = sep <;> simp [hc]

theorem splitOnCharCore_not_contains (sep : Char) :
    ∀ l : List Char, l.contains sep = false → splitOnCharCore sep l = [l] := by
  intro l
  induction l with
  | nil => intro _; rfl
  | cons c rest ih =>
    intro h
    simp only [List.contains_cons, Bool.or_eq_false_iff, beq_eq_false_iff_ne] at h
    simp [splitOnCharCore, ih h.2, Ne.symm h.1]

theorem splitOnCharCore_append_cons (sep : Char) (l2 : List Char) :
    ∀ l1 : List Char, l1.contains sep = false →
      splitOnCharCore sep (l1 ++ sep :: l2) = l1 :: splitOnCharCore sep l2 := by
  intro l1
  induction l1 with
  | nil =>
    intro _
    simp only [List.nil_append, splitOnCharCore]
    rcases h : splitOnCharCore sep l2 with _ | ⟨f, fs⟩
    · exact absurd h (splitOnCharCore_ne_nil sep l2)
    · simp
  | cons c l1 ih =>
    intro h
    simp only [List.contains_cons, Bool.or_eq_false_iff, beq_eq_false_iff_ne] at h
    simp [splitOnCharCore, ih h.2, Ne.symm h.1]

/-! ## C2: the filter-graph synthesizer -/

/-- C2: makeFilterStrings is a pure, order-preserving map over the spec array:
a string spec passes through unchanged, and a structured spec is the
concatenation of bracket-wrapped input labels, the filter name, the option
text and bracket-wrapped output labels, where the option text is an equals
sign followed by the scalar itself, by colon-joined positional values, or by
colon-joined key=value pairs (string values containing a comma single-quoted),
emitted only for present (truthy) options; and the scale example synthesizes
to scale=w=320:h=240. -/
theorem c2_makeFilterStrings_shape :
    (∀ fs : List FilterSpec, makeFilterStrings fs = fs.map makeFilterString) ∧
    (∀ s : String, makeFilterString (FilterSpec.raw s) = s) ∧
    (∀ f : FilterSpecObj,
        makeFilterString (FilterSpec.spec f)
          = String.join (f.inputs.map replaceStreamSpec) ++ f.filter
              ++ renderOpts f.options ++ String.join (f.outputs.map replaceStreamSpec)) ∧
    (∀ v, renderOpts (FilterOptions.scalar v)
        = if optsTruthy (FilterOptions.scalar v) then "=" ++ renderScalar v else "") ∧
    (∀ vs, renderOpts (FilterOptions.arr vs)
        = "=" ++ String.intercalate ":" (vs.map quoteIfComma)) ∧
    (∀ kvs, kvs ≠ [] → renderOpts (FilterOptions.obj kvs)
        = "=" ++ String.intercalate ":"
            (kvs.map fun kv => kv.1 ++ "=" ++ quoteIfComma kv.2)) ∧
    renderOpts FilterOptions.undef = "" ∧
    makeFilterStrings
      [FilterSpec.spec
        { filter := "scale",
          options := FilterOptions.obj [("w", FVal.num 320), ("h", FVal.num 240)] }]
      = ["scale=w=320:h=240"] := by
  refine ⟨fun _ => rfl, fun _ => rfl, fun _ => rfl, fun v => rfl, fun vs => rfl,
    fun kvs h => ?_, rfl, by decide⟩
  have hlen : kvs.length ≠ 0 := by simpa using h
  simp [renderOpts, optsTruthy, hlen]

/-- Witness for C2: the named-map case applied at a concrete single-pair
map. -/
theorem c2_witness :
    renderOpts (FilterOptions.obj [("a", FVal.num 1)])
      = "=" ++ String.intercalate ":"
          ([("a", FVal.num 1)].map fun kv => kv.1 ++ "=" ++ quoteIfComma kv.2) :=
  c2_makeFilterStrings_shape.2.2.2.2.2.1 [("a", FVal.num 1)] (by decide)

/-! ## C5: timemark conversion -/

/-- C5: timemarkToSeconds returns numeric input unchanged, returns a bare
decimal string (dot, no colon) as its numeric value, and otherwise parses the
colon-separated parts right to left as seconds plus minutes * 60 plus
hours * 3600; in particular 01:02:03.5 converts to 3723.5 and 10 converts
to 10. -/
theorem c5_timemarkToSeconds :
    (∀ q : ℚ, timemarkToSeconds (.num q) = some q) ∧
    (∀ s : String, s.data.contains ':' = false → s.data.contains '.' = true →
        timemarkToSeconds (.str s) = jsNumber s) ∧
    (∀ s : String, s.data.contains ':' = true ∨ s.data.contains '.' = false →
        timemarkToSeconds (.str s)
          = colonSecondsSum ((splitOnCharCore ':' s.data).map fun cs => (⟨cs⟩ : String))) ∧
    (∀ hh mm ss : String,
        colonSecondsSum [hh, mm, ss]
          = optAdd (optAdd (jsNumber ss) ((jsNumber mm).map (qMul · 60)))
              ((jsNumber hh).map (qMul · 3600))) ∧
    timemarkToSeconds (.str "01:02:03.5") = some (Rat.divInt 7447 2) ∧
    timemarkToSeconds (.str "10") = some 10 := by
  refine ⟨fun q => rfl, fun s h1 h2 => ?_, fun s h => ?_, fun hh mm ss => rfl,
    by decide, by decide⟩
  · show (if !(s.data.contains ':') && s.data.contains '.' then jsNumber s
          else colonSecondsSum ((splitOnCharCore ':' s.data).map fun cs => (⟨cs⟩ : String)))
        = jsNumber s
    rw [h1, h2]; rfl
  · show (if !(s.data.contains ':') && s.data.contains '.' then jsNumber s
          else colonSecondsSum ((splitOnCharCore ':' s.data).map fun cs => (⟨cs⟩ : String)))
        = colonSecondsSum ((splitOnCharCore ':' s.data).map fun cs => (⟨cs⟩ : String))
    rcases h with h | h
    · rw [h]; simp
    · rw [h]; simp

/-- Witness for C5: the bare-decimal and colon branches applied at concrete
strings. -/
theorem c5_witness :
    timemarkToSeconds (.str "3.5") = jsNumber "3.5" ∧
    timemarkToSeconds (.str "7")
      = colonSecondsSum ((splitOnCharCore ':' "7".data).map fun cs => (⟨cs⟩ : String)) :=
  ⟨c5_timemarkToSeconds.2.1 "3.5" (by decide) (by decide),
   c5_timemarkToSeconds.2.2.1 "7" (Or.inr (by decide))⟩

/-! ## C9: the terminal event fires exactly once -/

theorem foldl_emitEnd_ended :
    ∀ (rest : List (Option String)) (st : RunState), st.ended = true →
      rest.foldl emitEnd st = st := by
  intro rest
  induction rest with
  | nil => intro st _; rfl
  | cons e rest ih =>
    intro st h
    have : emitEnd st e = st := by simp [emitEnd, h]
    simp [List.foldl_cons, this, ih st h]

/-- C9: per invocation the terminal event fires exactly once: for any
nonempty sequence of completion triggers the event list holds exactly the
event of the first trigger, and once the latch is set every further emitEnd
call is a no-op. -/
theorem c9_terminal_event_once :
    (∀ (first : Option String) (rest : List (Option String)),
        (runTriggers (first :: rest)).events = [toTerminalEvent first]) ∧
    (∀ (st : RunState) (e : Option String), st.ended = true → emitEnd st e = st) := by
  constructor
  · intro first rest
    have h1 : emitEnd { ended := false, events := [] } first
        = { ended := true, events := [toTerminalEvent first] } := by
      simp [emitEnd]
    show (List.foldl emitEnd { ended := false, events := [] } (first :: rest)).events = _
    rw [List.foldl_cons, h1,
      foldl_emitEnd_ended rest { ended := true, events := [toTerminalEvent first] } rfl]
  · intro st e h
    simp [emitEnd, h]

/-- Witness for C9: a nonzero exit followed by an output stream error yields
only the first failure, and the latched state absorbs further triggers. -/
theorem c9_witness :
    (runTriggers [some "ffmpeg exited with code 1", some "Output stream error: x"]).events
        = [toTerminalEvent (some "ffmpeg exited with code 1")] ∧
    emitEnd { ended := true, events := [TerminalEvent.success] } (some "late")
        = { ended := true, events := [TerminalEvent.success] } :=
  ⟨c9_terminal_event_once.1 (some "ffmpeg exited with code 1") [some "Output stream error: x"],
   c9_terminal_event_once.2 { ended := true, events := [TerminalEvent.success] } (some "late") rfl⟩

/-! ## C10: implicit word splitting in custom options -/

/-- C10: with one string or one array argument, every element splitting on
single spaces into exactly two words becomes two consecutive tokens (in
particular any space-free a and b make "a b" split into [a, b]), every other
element passes through whole; with more than one argument nothing is split;
and the input/output mutators append the formatted tokens to the respective
option list. -/
theorem c10_option_word_splitting :
    (∀ s, formatOptions (OptionCall.single s) = formatOption true s) ∧
    (∀ xs, formatOptions (OptionCall.singleArr xs) = (xs.map (formatOption true)).flatten) ∧
    (∀ xs, formatOptions (OptionCall.multi xs) = xs) ∧
    (∀ a b : String, a.data.contains ' ' = false → b.data.contains ' ' = false →
        formatOption true (a ++ " " ++ b) = [a, b]) ∧
    (∀ o, (splitOnCharCore ' ' o.data).length ≠ 2 → formatOption true o = [o]) ∧
    (∀ o, formatOption false o = [o]) ∧
    (∀ inp call, (inputOptionsApply inp call).options = inp.options ++ formatOptions call) ∧
    (∀ o call, (outputOptionsApply o call).options = o.options ++ formatOptions call) := by
  have hfalse : ∀ o, formatOption false o = [o] := by
    intro o; simp [formatOption]
  refine ⟨fun s => ?_, fun xs => ?_, fun xs => ?_, fun a b ha hb => ?_,
    fun o h => ?_, hfalse, fun inp call => rfl, fun o call => rfl⟩
  · simp [formatOptions, List.foldl_cons]
  · simp [formatOptions, foldl_append_flatten]
  · simp only [formatOptions, foldl_append_flatten, List.nil_append]
    induction xs with
    | nil => rfl
    | cons x xs ih => simp [hfalse, ih]
  · have hdata : (a ++ " " ++ b).data = a.data ++ ' ' :: b.data := by
      simp [String.data_append]
    have hsplit : splitOnCharCore ' ' (a ++ " " ++ b).data = [a.data, b.data] := by
      rw [hdata, splitOnCharCore_append_cons ' ' b.data a.data ha,
        splitOnCharCore_not_contains ' ' b.data hb]
    simp only [formatOption, hsplit]
    rfl
  · simp [formatOption, h]

/-- Witness for C10: a two-word option string is split into its two words. -/
theorem c10_witness : formatOption true ("-f" ++ " " ++ "mp4") = ["-f", "mp4"] :=
  c10_option_word_splitting.2.2.2.1 "-f" "mp4" (by decide) (by decide)

/-! ## C3: progress line detection and extraction -/

theorem progressStep_isSome (acc : Option (List (String × String))) (tok : List Char) :
    (progressStep acc tok).isSome = true ↔
      acc.isSome = true ∧ 2 ≤ (splitOnCharCore '=' tok).length := by
  cases acc with
  | none => simp [progressStep]
  | some kvs =>
    rcases h : splitOnCharCore '=' tok with _ | ⟨k, _ | ⟨v, rest⟩⟩ <;>
      simp [progressStep, h]

theorem progressStep_foldl_isSome :
    ∀ (parts : List (List Char)) (acc : Option (List (String × String))),
      (parts.foldl progressStep acc).isSome = true ↔
        (acc.isSome = true ∧ ∀ tok ∈ parts, 2 ≤ (splitOnCharCore '=' tok).length) := by
  intro parts
  induction parts with
  | nil => intro acc; simp
  | cons tok parts ih =>
    intro acc
    rw [List.foldl_cons, ih, progressStep_isSome]
    constructor
    · rintro ⟨⟨hacc, htok⟩, hrest⟩
      exact ⟨hacc, by
        intro t ht
        rcases List.mem_cons.mp ht with h | h
        · exact h ▸ htok
        · exact hrest t h⟩
    · rintro ⟨hacc, hall⟩
      exact ⟨⟨hacc, hall tok (List.mem_cons_self tok parts)⟩,
        fun t ht => hall t (List.mem_cons_of_mem tok ht)⟩

/-- C3: a stderr line yields a progress report exactly when, after collapsing
"= " runs and trimming, every space-delimited token splits into a key and a
value; on success the report maps frame, fps, bitrate (unit stripped, 0 when
absent), size (falling back to Lsize) and time exactly as extractProgress
builds them, percent is present only when a probed duration is known, and the
sample line parses to frames 10, fps 25, kbps 800, size 100 and timemark
00:00:01.00 while a line with a non key=value token yields nothing. -/
theorem c3_progress_extraction :
    (∀ line : String,
        (extractProgress none line).isSome = true ↔
          ∀ tok ∈ splitOnCharCore ' ' (trimWs (collapseEqAux false line.data)),
            2 ≤ (splitOnCharCore '=' tok).length) ∧
    (∀ (line : String) (d : Option ℚ) (kvs : List (String × String)),
        parseProgressLine line = some kvs →
          extractProgress d line = some
            { frames := parseIntJS (jsObjGet kvs "frame")
              currentFps := parseIntJS (jsObjGet kvs "fps")
              currentKbps :=
                match jsObjGet kvs "bitrate" with
                | some b =>
                  if b ≠ "" then parseFloatJS (⟨removeFirst "kbits/s".data b.data⟩ : String)
                  else some 0
                | none => some 0
              targetSize :=
                parseIntJS
                  (match jsObjGet kvs "size" with
                   | some sz => if sz ≠ "" then some sz else jsObjGet kvs "Lsize"
                   | none => jsObjGet kvs "Lsize")
              timemark := jsObjGet kvs "time"
              percent :=
                match d, jsObjGet kvs "time" with
                | some dur, some t =>
                  (timemarkToSeconds (.str t)).map fun q => qMul (qDiv q dur) 100
                | _, _ => none }) ∧
    (∀ (line : String) (r : Progress), extractProgress none line = some r →
        r.percent = none) ∧
    extractProgress none "frame=10 fps=25 q=-1.0 size=100kB time=00:00:01.00 bitrate=800.0kbits/s"
      = some { frames := some 10, currentFps := some 25, currentKbps := some 800,
               targetSize := some 100, timemark := some "00:00:01.00", percent := none } ∧
    extractProgress (some 2)
        "frame=10 fps=25 q=-1.0 size=100kB time=00:00:01.00 bitrate=800.0kbits/s"
      = some { frames := some 10, currentFps := some 25, currentKbps := some 800,
               targetSize := some 100, timemark := some "00:00:01.00", percent := some 50 } ∧
    extractProgress none "frame=10 something fps=25" = none := by
  have hiff : ∀ (d : Option ℚ) (line : String),
      (extractProgress d line).isSome = true ↔
        ∀ tok ∈ splitOnCharCore ' ' (trimWs (collapseEqAux false line.data)),
          2 ≤ (splitOnCharCore '=' tok).length := by
    intro d line
    have h1 : (extractProgress d line).isSome = (parseProgressLine line).isSome := by
      simp [extractProgress]
    rw [h1]
    have h2 := progressStep_foldl_isSome
      (splitOnCharCore ' ' (trimWs (collapseEqAux false line.data))) (some [])
    simpa [parseProgressLine] using h2
  refine ⟨hiff none, fun line d kvs h => ?_, fun line r h => ?_,
    by decide, by decide, by decide⟩
  · simp [extractProgress, h]
  · simp only [extractProgress] at h
    cases hp : parseProgressLine line with
    | none => rw [hp] at h; cases h
    | some kvs =>
      rw [hp, Option.map_some'] at h
      injection h with h2
      rw [← h2]

/-- Witness for C3: the field-mapping conjunct applied at the sample line. -/
theorem c3_witness :
    extractProgress none "frame=10 time=1" = some
      { frames := parseIntJS (jsObjGet [("frame", "10"), ("time", "1")] "frame")
        currentFps := parseIntJS (jsObjGet [("frame", "10"), ("time", "1")] "fps")
        currentKbps :=
          match jsObjGet [("frame", "10"), ("time", "1")] "bitrate" with
          | some b =>
            if b ≠ "" then parseFloatJS (⟨removeFirst "kbits/s".data b.data⟩ : String)
            else some 0
          | none => some 0
        targetSize :=
          parseIntJS
            (match jsObjGet [("frame", "10"), ("time", "1")] "size" with
             | some sz => if sz ≠ "" then some sz
               else jsObjGet [("frame", "10"), ("time", "1")] "Lsize"
             | none => jsObjGet [("frame", "10"), ("time", "1")] "Lsize")
        timemark := jsObjGet [("frame", "10"), ("time", "1")] "time"
        percent :=
          match (none : Option ℚ), jsObjGet [("frame", "10"), ("time", "1")] "time" with
          | some dur, some t =>
            (timemarkToSeconds (.str t)).map fun q => qMul (qDiv q dur) 100
          | _, _ => none } :=
  c3_progress_extraction.2.1 "frame=10 time=1" none [("frame", "10"), ("time", "1")] (by decide)

/-! ## C4: the line ring buffer (corrected) -/

/-- C4 counterexample: with a maximum of 2 lines the buffer does not retain
the last 2 completed lines plus the pending line: after appending a\nb\nc the
history holds only b (not a and b), so get() is b\nc rather than a\nb\nc. -/
theorem c4_counterexample :
    ((linesRing 2).append "a\nb\nc").lines = ["b"] ∧
    ((linesRing 2).append "a\nb\nc").get = "b\nc" ∧
    ((linesRing 2).append "a\nb\nc").get ≠ "a\nb\nc" := by decide

/-- C4 (amended): appending a\nb\nc then d then closing an unlimited buffer
yields get() = a\nb\ncd; a buffer with maximum 2 retains only the last
maxLines - 1 = 1 completed line plus the pending line (the pending line counts
toward the maximum); close flushes the pending line to the callbacks exactly
once and latches the closed flag (a second close is a no-op), and any append
after close is ignored. -/
theorem c4_linesRing_amended :
    (((linesRing 0).append "a\nb\nc").append "d").close.get = "a\nb\ncd" ∧
    (((linesRing 2).append "a\nb\nc").lines = ["b"] ∧
      ((linesRing 2).append "a\nb\nc").current = some "c") ∧
    (∀ (r : LinesRing) (c : String), r.closed = false → r.current = some c →
        r.close.emitted = r.emitted ++ [c] ∧ r.close.closed = true) ∧
    (∀ r : LinesRing, r.closed = true → (∀ s, r.append s = r) ∧ r.close = r) := by
  refine ⟨by decide, ⟨by decide, by decide⟩, fun r c hc hcur => ?_, fun r h => ?_⟩
  · simp [LinesRing.close, hc, hcur]
  · exact ⟨fun s => by simp [LinesRing.append, h], by simp [LinesRing.close, h]⟩

/-- Witness for C4: the close-flush and closed-absorption conjuncts applied at
concrete buffers. -/
theorem c4_witness :
    ({ maxLines := 0, lines := ["x"], current := some "y", closed := false,
       emitted := ["x"] } : LinesRing).close.emitted = ["x"] ++ ["y"] ∧
    ({ maxLines := 0, lines := ["x"], current := some "y", closed := false,
       emitted := ["x"] } : LinesRing).close.closed = true ∧
    ({ maxLines := 0, lines := ["x"], current := none, closed := true,
       emitted := ["x"] } : LinesRing).append "z"
      = { maxLines := 0, lines := ["x"], current := none, closed := true, emitted := ["x"] } :=
  ⟨(c4_linesRing_amended.2.2.1 _ "y" rfl rfl).1,
   (c4_linesRing_amended.2.2.1 _ "y" rfl rfl).2,
   (c4_linesRing_amended.2.2.2 _ rfl).1 "z"⟩

/-! ## C8: unparsable size specifications (corrected) -/

/-- C8 counterexample: the Invalid size specified failure is not an assembly
failure: the size mutator itself raises it at configuration time, and a
session whose output carries the unparsable persisted size spec (as left
behind when that exception is caught) still assembles into a token vector. -/
theorem c8_counterexample :
    size {} "foo" = .error "Invalid size specified: foo" ∧
    getArguments { outputs := [{ sizeData := { size := some "foo" } }] } = [] := by decide

/-- C8 (amended): a size specification matching none of the WxH, Wx?, ?xH or
N% shapes makes the size mutator itself fail synchronously, at configuration
time and before anything is assembled or spawned, with the Invalid size
specified error. -/
theorem c8_size_error_synchronous (o : FOutput) (sz : String)
    (h : ¬ sizeMatchable sz) :
    size o sz = .error ("Invalid size specified: " ++ sz) := by
  have hp : findPercent none sz.data = none := by
    cases hx : findPercent none sz.data with
    | none => rfl
    | some v => exact absurd (Or.inl (by simp [hx])) h
  have hw : findWxH sz.data = none := by
    cases hx : findWxH sz.data with
    | none => rfl
    | some v => exact absurd (Or.inr (Or.inl (by simp [hx]))) h
  have hq : findWq sz.data = none := by
    cases hx : findWq sz.data with
    | none => rfl
    | some v => exact absurd (Or.inr (Or.inr (Or.inl (by simp [hx])))) h
  have hh : findQH sz.data = none := by
    cases hx : findQH sz.data with
    | none => rfl
    | some v => exact absurd (Or.inr (Or.inr (Or.inr (by simp [hx])))) h
  simp [size, createSizeFilters, hp, hw, hq, hh, Except.map]

/-- Witness for C8: the amended failure applied at the unparsable spec foo. -/
theorem c8_witness :
    size ({} : FOutput) "foo" = .error ("Invalid size specified: " ++ "foo") :=
  c8_size_error_synchronous ({} : FOutput) "foo" (by decide)

/-! ## C6: the three size mutators commute -/

theorem createSizeFilters_ok (d : SizeData)
    (h : d.size = none ∨ ∃ sz, d.size = some sz ∧ sizeMatchable sz) :
    ∃ fs, createSizeFilters d = Except.ok fs := by
  rcases h with h | ⟨sz, hsz, hm⟩
  · exact ⟨[], by simp [createSizeFilters, h]⟩
  · simp only [createSizeFilters, hsz]
    rcases hp : findPercent none sz.data with _ | pct <;>
      rcases hw : findWxH sz.data with _ | ⟨wds, hds⟩ <;>
      rcases hq : findWq sz.data with _ | w <;>
      rcases hh : findQH sz.data with _ | hgt <;>
      rcases ha : d.aspect with _ | a <;>
      rcases hpad : padTruthy d.pad with _ | color <;>
      simp only [hp, hw, hq, hh, ha, hpad] <;>
      first
        | exact ⟨_, rfl⟩
        | (exfalso
           rcases hm with hm | hm | hm | hm <;> simp [hp, hw, hq, hh] at hm)

/-- C6: for every output whose persisted size data is healthy and for any
valid size string s, aspect a and pad parameters, applying size, aspectRatio
and autopad in any of the six orders produces the same final output, whose
sizeData is the record of the three requested values and whose size-filter
list is recomputed wholesale from that record. -/
theorem c6_size_mutators_commute (o : FOutput) (s : String) (a : ℚ) (p : PadArg)
    (c : Option String) (hs : sizeMatchable s) (hprev : prevSizeOk o) :
    ∃ oF : FOutput,
      ((size o s).bind fun x => (withAspect x (.num a)).bind fun y => autopad y p c)
          = Except.ok oF ∧
      ((size o s).bind fun x => (autopad x p c).bind fun y => withAspect y (.num a))
          = Except.ok oF ∧
      ((withAspect o (.num a)).bind fun x => (size x s).bind fun y => autopad y p c)
          = Except.ok oF ∧
      ((withAspect o (.num a)).bind fun x => (autopad x p c).bind fun y => size y s)
          = Except.ok oF ∧
      ((autopad o p c).bind fun x => (size x s).bind fun y => withAspect y (.num a))
          = Except.ok oF ∧
      ((autopad o p c).bind fun x => (withAspect x (.num a)).bind fun y => size y s)
          = Except.ok oF ∧
      oF.sizeData
          = { o.sizeData with size := some s, aspect := some a, pad := padValue p c } ∧
      createSizeFilters oF.sizeData = Except.ok oF.sizeFilters := by
  have hgen : ∀ d : SizeData, d.size = o.sizeData.size →
      (d.size = none ∨ ∃ sz, d.size = some sz ∧ sizeMatchable sz) := by
    intro d hd
    rcases hprev with h0 | ⟨sz0, hsz0, hm0⟩
    · exact Or.inl (hd.trans h0)
    · exact Or.inr ⟨sz0, hd.trans hsz0, hm0⟩
  obtain ⟨fS, hS⟩ := createSizeFilters_ok { o.sizeData with size := some s }
    (Or.inr ⟨s, rfl, hs⟩)
  obtain ⟨fA, hA⟩ := createSizeFilters_ok { o.sizeData with aspect := some a }
    (hgen _ rfl)
  obtain ⟨fP, hP⟩ := createSizeFilters_ok { o.sizeData with pad := padValue p c }
    (hgen _ rfl)
  obtain ⟨fSA, hSA⟩ := createSizeFilters_ok
    { o.sizeData with size := some s, aspect := some a } (Or.inr ⟨s, rfl, hs⟩)
  obtain ⟨fSP, hSP⟩ := createSizeFilters_ok
    { o.sizeData with size := some s, pad := padValue p c } (Or.inr ⟨s, rfl, hs⟩)
  obtain ⟨fAP, hAP⟩ := createSizeFilters_ok
    { o.sizeData with aspect := some a, pad := padValue p c } (hgen _ rfl)
  obtain ⟨fF, hF⟩ := createSizeFilters_ok
    { o.sizeData with size := some s, aspect := some a, pad := padValue p c }
    (Or.inr ⟨s, rfl, hs⟩)
  refine ⟨{ o with
      sizeData := { o.sizeData with size := some s, aspect := some a, pad := padValue p c },
      sizeFilters := fF }, ?_, ?_, ?_, ?_, ?_, ?_, rfl, hF⟩ <;>
    simp only [size, withAspect, autopad, Except.bind, Except.map,
      hS, hA, hP, hSA, hSP, hAP, hF]

/-- Witness for C6: the commutation applied at a fresh output with size
320x240, aspect 4/3 and black autopadding. -/
theorem c6_witness :
    ∃ oF : FOutput,
      ((size {} "320x240").bind fun x =>
          (withAspect x (.num (Rat.divInt 4 3))).bind fun y =>
            autopad y (.bool true) none) = Except.ok oF ∧
      ((size {} "320x240").bind fun x =>
          (autopad x (.bool true) none).bind fun y =>
            withAspect y (.num (Rat.divInt 4 3))) = Except.ok oF ∧
      ((withAspect {} (.num (Rat.divInt 4 3))).bind fun x =>
          (size x "320x240").bind fun y => autopad y (.bool true) none) = Except.ok oF ∧
      ((withAspect {} (.num (Rat.divInt 4 3))).bind fun x =>
          (autopad x (.bool true) none).bind fun y => size y "320x240") = Except.ok oF ∧
      ((autopad {} (.bool true) none).bind fun x =>
          (size x "320x240").bind fun y =>
            withAspect y (.num (Rat.divInt 4 3))) = Except.ok oF ∧
      ((autopad {} (.bool true) none).bind fun x =>
          (withAspect x (.num (Rat.divInt 4 3))).bind fun y => size y "320x240")
          = Except.ok oF ∧
      oF.sizeData
          = { ({} : FOutput).sizeData with
              size := some "320x240"
              aspect := some (Rat.divInt 4 3)
              pad := padValue (.bool true) none } ∧
      createSizeFilters oF.sizeData = Except.ok oF.sizeFilters :=
  c6_size_mutators_commute {} "320x240" (Rat.divInt 4 3) (.bool true) none
    (by decide) (Or.inl rfl)

theorem foldl_append_of_body_mem {α β : Type} (body : List β → α → List β) (F : α → List β) :
    ∀ (l : List α) (init : List β), (∀ acc x, x ∈ l → body acc x = acc ++ F x) →
      l.foldl body init = init ++ (l.map F).flatten := by
  intro l
  induction l with
  | nil => intro init _; simp
  | cons x xs ih =>
    intro init hb
    rw [List.foldl_cons, hb init x (List.mem_cons_self x xs),
      ih (init ++ F x) (fun acc y hy => hb acc y (List.mem_cons_of_mem x hy))]
    simp

/-- C1: for every session (whose file targets are nonempty strings, as the
output mutator guarantees) the assembly yields exactly: per input its option
tokens then the input flag and source token (pipe:0 for a stream), then the
global options, then the overwrite flag exactly when some output has the file
flag, then the complex-filter tokens, then per output its audio options, a
single combined audio-filter flag when any audio filter was accumulated, its
video options, a single combined video-filter flag (video then size filters,
comma-joined) when any video or size filter was accumulated, its remaining
options, and its target token (path, pipe:1 for a stream sink, nothing for
the placeholder). -/
theorem c1_arguments_assembly (s : FfmpegSession)
    (h : ∀ o ∈ s.outputs, o.target ≠ OutTarget.path "") :
    getArguments s = argumentsSpec s := by
  have hin :
      s.inputs.foldl
        (fun args input =>
          args ++ input.options
            ++ ["-i", match input.source with | .path p => p | .stream _ => "pipe:0"])
        []
        = [] ++ (s.inputs.map inputTokensSpec).flatten := by
    apply foldl_append_of_body_mem
    intro acc input _
    simp [inputTokensSpec]
  have hout :
      s.outputs.foldl
        (fun args output =>
          args ++ output.audioOpts
            ++ (if (output.audioFilters).length ≠ 0 then
                  ["-filter:a", String.intercalate "," output.audioFilters] else [])
            ++ output.videoOpts
            ++ (if (output.videoFilters ++ makeFilterStrings output.sizeFilters).length ≠ 0 then
                  ["-filter:v", String.intercalate ","
                    (output.videoFilters ++ makeFilterStrings output.sizeFilters)] else [])
            ++ output.options
            ++ (match output.target with
                | .noTarget => []
                | .path p => if p = "" then [] else [p]
                | .stream => ["pipe:1"]))
        []
        = [] ++ (s.outputs.map outputTokensSpec).flatten := by
    apply foldl_append_of_body_mem
    intro acc o hmem
    have ht := h o hmem
    have ha : (if (o.audioFilters).length ≠ 0 then
          ["-filter:a", String.intercalate "," o.audioFilters] else [])
        = (if o.audioFilters = [] then []
           else ["-filter:a", String.intercalate "," o.audioFilters]) := by
      by_cases hx : o.audioFilters = [] <;> simp [hx]
    have hv : (if (o.videoFilters ++ makeFilterStrings o.sizeFilters).length ≠ 0 then
          ["-filter:v", String.intercalate ","
            (o.videoFilters ++ makeFilterStrings o.sizeFilters)] else [])
        = (if o.videoFilters = [] ∧ o.sizeFilters = [] then []
           else ["-filter:v", String.intercalate ","
             (o.videoFilters ++ makeFilterStrings o.sizeFilters)]) := by
      by_cases hx : o.videoFilters = [] ∧ o.sizeFilters = []
      · rcases hx with ⟨h1, h2⟩
        simp [h1, h2, makeFilterStrings]
      · have hlen : (o.videoFilters ++ makeFilterStrings o.sizeFilters).length ≠ 0 := by
          rcases not_and_or.mp hx with h1 | h1 <;>
            simp [makeFilterStrings, List.length_eq_zero, h1]
        simp only [hx, hlen, if_true, if_false]
        simp [hlen]
        intro h1
        rcases not_and_or.mp hx with h2 | h2
        · exact absurd h1 h2
        · simp [makeFilterStrings, h2]
    have htar : (match o.target with
          | OutTarget.noTarget => ([] : List String)
          | OutTarget.path p => if p = "" then [] else [p]
          | OutTarget.stream => ["pipe:1"])
        = (match o.target with
          | OutTarget.noTarget => ([] : List String)
          | OutTarget.path p => [p]
          | OutTarget.stream => ["pipe:1"]) := by
      cases hc : o.target with
      | noTarget => rfl
      | stream => rfl
      | path p =>
        have hp : p ≠ "" := by
          intro he
          exact ht (by rw [hc, he])
        simp [hp]
    rw [ha, hv, htar]
    simp [outputTokensSpec]
  simp only [getArguments, argumentsSpec]
  rw [hin, hout]
  simp

/-- Witness for C1: the assembly refinement applied at a concrete session
with a stream input, a file output carrying every option list and a stream
output. -/
theorem c1_witness :
    getArguments
      { inputs := [{ source := InSource.stream true, isStream := true,
                     options := ["-f", "rawvideo"] }],
        outputs :=
          [{ target := OutTarget.path "out.mp4", isFile := true,
             audioOpts := ["-acodec", "aac"], audioFilters := ["volume=0.5"],
             videoOpts := ["-vcodec", "libx264"], videoFilters := ["crop=100"],
             sizeFilters := [FilterSpec.spec
               { filter := "scale",
                 options := FilterOptions.obj [("w", FVal.num 320), ("h", FVal.num 240)] }],
             options := ["-t", "30"] },
           { target := OutTarget.stream }],
        globalOpts := ["-progress", "pipe:2"],
        complexFilters := ["-filter_complex", "[0:v]split[a][b]"] }
      = argumentsSpec
      { inputs := [{ source := InSource.stream true, isStream := true,
                     options := ["-f", "rawvideo"] }],
        outputs :=
          [{ target := OutTarget.path "out.mp4", isFile := true,
             audioOpts := ["-acodec", "aac"], audioFilters := ["volume=0.5"],
             videoOpts := ["-vcodec", "libx264"], videoFilters := ["crop=100"],
             sizeFilters := [FilterSpec.spec
               { filter := "scale",
                 options := FilterOptions.obj [("w", FVal.num 320), ("h", FVal.num 240)] }],
             options := ["-t", "30"] },
           { target := OutTarget.stream }],
        globalOpts := ["-progress", "pipe:2"],
        complexFilters := ["-filter_complex", "[0:v]split[a][b]"] } :=
  c1_arguments_assembly _ (by decide)

example :
    extractProgress none "frame=10 fps=25 q=-1.0 size=100kB time=00:00:01.00 bitrate=800.0kbits/s"
      = some { frames := some 10, currentFps := some 25, currentKbps := some 800,
               targetSize := some 100, timemark := some "00:00:01.00", percent := none } := by
  decide

example :
    (((linesRing 0).append "a\nb\nc").append "d").close.get = "a\nb\ncd" := by decide

example : ((linesRing 2).append "a\nb\nc").get = "b\nc" := by decide

example : timemarkToSeconds (.str "01:02:03.5") = some (Rat.divInt 7447 2) := by decide

/-! ## C7: at most one stream input and one stream output -/

theorem getLast?_mem_of_eq {α : Type} {l : List α} {a : α} (h : l.getLast? = some a) :
    a ∈ l := by
  rcases List.mem_getLast?_eq_getLast (Option.mem_def.mpr h) with ⟨hne, heq⟩
  rw [heq]
  exact List.getLast_mem hne

theorem countP_singleton_le_one {α : Type} (p : α → Bool) (a : α) : [a].countP p ≤ 1 := by
  by_cases h : p a = true <;> simp [List.countP_cons, h]

theorem mergeAdd_good (st : FfmpegSession) (src : InSource) (st' : FfmpegSession)
    (hg : goodSession st) (h : mergeAdd st src = .ok st') : goodSession st' := by
  rcases hg with ⟨⟨hin, hout⟩, hnt⟩
  cases src with
  | path p =>
    simp only [mergeAdd] at h
    cases h
    refine ⟨⟨?_, hout⟩, hnt⟩
    simpa [List.countP_append, List.countP_cons] using hin
  | stream readable =>
    simp only [mergeAdd] at h
    split at h
    · cases h
    · split at h
      · cases h
      · rename_i hany
        cases h
        refine ⟨⟨?_, hout⟩, hnt⟩
        have h0 : st.inputs.countP (·.isStream) = 0 := by
          rw [List.countP_eq_zero]
          intro a ha hs
          exact hany (List.any_eq_true.mpr ⟨a, ha, hs⟩)
        simp [List.countP_append, List.countP_cons, h0]

theorem output_good (st : FfmpegSession) (t : OutArg) (st' : FfmpegSession)
    (hg : goodSession st) (h : output st t = .ok st') : goodSession st' := by
  rcases hg with ⟨⟨hin, hout⟩, hnt⟩
  have hfill_case : ∀ (tv : OutTarget) (hf : Bool),
      (match st.outputs.getLast? with
        | some cur => cur.target == OutTarget.noTarget
        | none => false) = true →
      goodSession { st with outputs :=
        st.outputs.dropLast
          ++ [{ (st.outputs.getLast?.getD {}) with target := tv, isFile := hf }] } := by
    intro tv hf hX
    cases hlast : st.outputs.getLast? with
    | none => rw [hlast] at hX; cases hX
    | some cur =>
      rw [hlast] at hX
      have hcurnt : cur.target = OutTarget.noTarget := by simpa using hX
      obtain ⟨x, hx⟩ := List.length_eq_one.mp (hnt cur (getLast?_mem_of_eq hlast) hcurnt)
      rw [hx]
      refine ⟨⟨hin, ?_⟩, ?_⟩
      · have := countP_singleton_le_one (fun o => o.target == OutTarget.stream)
          { x with target := tv, isFile := hf }
        simpa using this
      · intro o _ _
        simp
  have hpush_nt : ∀ R : FOutput, R.target ≠ OutTarget.noTarget →
      (match st.outputs.getLast? with
        | some cur => cur.target == OutTarget.noTarget
        | none => false) = false →
      ∀ o ∈ st.outputs ++ [R],
        o.target = OutTarget.noTarget →
        (st.outputs ++ [R]).length = 1 := by
    intro R htv hX o ho hno
    rcases List.mem_append.mp ho with ho | ho
    · exfalso
      obtain ⟨x, hx⟩ := List.length_eq_one.mp (hnt o ho hno)
      have hmem := ho
      rw [hx] at hmem
      rcases List.mem_singleton.mp hmem with rfl
      rw [hx] at hX
      simp [hno] at hX
    · exfalso
      rcases List.mem_singleton.mp ho with rfl
      exact htv hno
  simp only [output] at h
  split at h
  · cases h
  · rename_i hc1
    split at h
    · cases h
    ·   split at h
        · -- fill the placeholder
          rename_i hfill
          rw [Bool.and_eq_true] at hfill
          cases h
          exact hfill_case _ _ hfill.2
        · rename_i hnofill
          split at h
          · -- push a stream output after the uniqueness check
            rename_i hstrm
            split at h
            · cases h
            · rename_i hany
              cases h
              cases t with
              | undef => simp at hstrm
              | path p => simp at hstrm
              | stream w =>
                have hall : ∀ o ∈ st.outputs, isStringTarget o.target = true := by
                  intro o ho
                  by_cases hs : isStringTarget o.target = true
                  · exact hs
                  · exact absurd (List.any_eq_true.mpr ⟨o, ho, by simp [hs]⟩) hany
                refine ⟨⟨hin, ?_⟩, ?_⟩
                · have h0 : st.outputs.countP (fun o => o.target == OutTarget.stream) = 0 := by
                    rw [List.countP_eq_zero]
                    intro o ho hbeq
                    have heq : o.target = OutTarget.stream := by simpa using hbeq
                    have hstr := hall o ho
                    rw [heq] at hstr
                    simp [isStringTarget] at hstr
                  simp [List.countP_append, List.countP_cons, h0]
                · intro o ho hno
                  have ho' : o ∈ st.outputs ∨ o = ({ target := OutTarget.stream } : FOutput) := by
                    simpa using ho
                  rcases ho' with ho2 | rfl
                  · exfalso
                    have hstr := hall o ho2
                    rw [hno] at hstr
                    simp [isStringTarget] at hstr
                  · simp at hno
          · -- plain push
            rename_i hnostrm
            cases t with
            | undef =>
              simp only [Bool.not_false, Bool.true_and] at hc1
              have hnone : st.outputs = [] := by
                rw [← List.getLast?_eq_none_iff]
                cases hl : st.outputs.getLast? with
                | none => rfl
                | some cur => exact absurd (by simp [hl]) hc1
              cases h
              rw [hnone]
              refine ⟨⟨hin, by simp [List.countP_cons]⟩, ?_⟩
              intro o ho hno
              simp
            | path p =>
              by_cases hp : p = ""
              · subst hp
                simp only [bne_self_eq_false, Bool.not_false, Bool.true_and] at hc1
                have hnone : st.outputs = [] := by
                  rw [← List.getLast?_eq_none_iff]
                  cases hl : st.outputs.getLast? with
                  | none => rfl
                  | some cur => exact absurd (by simp [hl]) hc1
                cases h
                rw [hnone]
                refine ⟨⟨hin, by simp [List.countP_cons]⟩, ?_⟩
                intro o ho hno
                simp
              · cases h
                have hXf : (match st.outputs.getLast? with
                    | some cur => cur.target == OutTarget.noTarget
                    | none => false) = false := by
                  cases hb : (match st.outputs.getLast? with
                      | some cur => cur.target == OutTarget.noTarget
                      | none => false) with
                  | false => rfl
                  | true => exact absurd (by rw [hb]; simp [hp]) hnofill
                refine ⟨⟨hin, ?_⟩, ?_⟩
                · simp [List.countP_append, List.countP_cons, hp]
                  exact hout
                · intro o ho hno
                  exact hpush_nt _ (by simp [hp]) hXf o ho hno
            | stream w => simp at hnostrm

theorem stepOp_good (st : FfmpegSession) (op : SessionOp) (hg : goodSession st) :
    goodSession (stepOp st op) := by
  cases hop : applyOp st op with
  | ok st' =>
    have hstep : stepOp st op = st' := by simp [stepOp, hop]
    rw [hstep]
    cases op with
    | addIn src => exact mergeAdd_good st src st' hg hop
    | addOut t => exact output_good st t st' hg hop
  | error e =>
    have hstep : stepOp st op = st := by simp [stepOp, hop]
    rw [hstep]
    exact hg

theorem initSession_good : goodSession initSession := by
  refine ⟨⟨by decide, by decide⟩, ?_⟩
  intro o ho hno
  rfl

theorem runOps_good (ops : List SessionOp) : goodSession (runOps ops) := by
  have main : ∀ (ops : List SessionOp) (st : FfmpegSession), goodSession st →
      goodSession (ops.foldl stepOp st) := by
    intro ops
    induction ops with
    | nil => intro st hst; exact hst
    | cons op ops ih => intro st hst; exact ih _ (stepOp_good st op hst)
  exact main ops initSession initSession_good

/-- C7: in every session reachable from the constructor state by input and
output mutations, at most one input is a stream source and at most one output
is a stream sink (a raised error leaves the session unchanged by stepOp);
moreover adding a stream input when one exists fails with Only one input
stream is supported, and adding a stream output when a stream-target output
exists fails with Only one output stream is supported. -/
theorem c7_stream_uniqueness :
    (∀ ops : List SessionOp, streamInv (runOps ops)) ∧
    (∀ st : FfmpegSession, st.inputs.any (·.isStream) = true →
        mergeAdd st (InSource.stream true) = .error "Only one input stream is supported") ∧
    (∀ ops : List SessionOp,
        (∃ o ∈ (runOps ops).outputs, o.target = OutTarget.stream) →
          output (runOps ops) (OutArg.stream true)
            = .error "Only one output stream is supported") := by
  refine ⟨fun ops => (runOps_good ops).1, fun st h => ?_, fun ops h => ?_⟩
  · simp [mergeAdd, h]
  · obtain ⟨o, hmem, htar⟩ := h
    obtain ⟨hsi, hnt⟩ := runOps_good ops
    cases hlast : (runOps ops).outputs.getLast? with
    | none =>
      rw [List.getLast?_eq_none_iff] at hlast
      rw [hlast] at hmem
      cases hmem
    | some cur =>
      have hcur : cur.target ≠ OutTarget.noTarget := by
        intro hcnt
        obtain ⟨x, hx⟩ := List.length_eq_one.mp
          (hnt cur (getLast?_mem_of_eq hlast) hcnt)
        have hlx := hlast
        rw [hx] at hlx hmem
        have hcx : cur = x := by
          have := hlx
          simp at this
          exact this.symm
        rcases List.mem_singleton.mp hmem with rfl
        rw [hcx] at hcnt
        rw [hcnt] at htar
        cases htar
      have hbeq : (cur.target == OutTarget.noTarget) = false :=
        beq_eq_false_iff_ne.mpr hcur
      have hany : (runOps ops).outputs.any (fun o => !isStringTarget o.target) = true :=
        List.any_eq_true.mpr ⟨o, hmem, by simp [isStringTarget, htar]⟩
      simp [output, hlast, hbeq, hany]

/-- Witness for C7: the invariant after adding a stream output, a second
stream input rejected, and a second stream output rejected. -/
theorem c7_witness :
    streamInv (runOps [SessionOp.addOut (OutArg.stream true)]) ∧
    mergeAdd { inputs := [{ source := InSource.stream true, isStream := true }] }
        (InSource.stream true) = .error "Only one input stream is supported" ∧
    output (runOps [SessionOp.addOut (OutArg.stream true)]) (OutArg.stream true)
      = .error "Only one output stream is supported" :=
  ⟨c7_stream_uniqueness.1 [SessionOp.addOut (OutArg.stream true)],
   c7_stream_uniqueness.2.1 _ (by decide),
   c7_stream_uniqueness.2.2 [SessionOp.addOut (OutArg.stream true)] (by decide)⟩

end NodeFfmpeg
